import Mathlib

/-!
Verification development for the Auto SFX Studio pipeline
(`src/streamlit_app.py`): silence mapping, effect-plan handling,
sound-clip fetching and the pydub-based timeline compositor.

Numbers that the Python code holds in IEEE doubles are modelled as exact
rationals; audio sample data (pydub `AudioSegment`) is modelled as a list of
integer samples at a fixed frame rate of `fpms` frames per millisecond.
-/

/-- A word-level timestamp entry from the transcription response
(`transcript.words`): keys `word`, `start`, `end`. -/
structure WordToken where
  word : String
  start : ℚ
  end_ : ℚ
deriving DecidableEq, Repr

/-- One entry of the sonic map built by `transcribe_and_map`: either a
silence marker carrying its (rounded) duration, or a word together with the
start time printed next to it. -/
inductive SonicEntry where
  | silence (dur : ℚ)
  | word (text : String) (start : ℚ)
deriving DecidableEq, Repr

/-- Round-half-to-even on rationals; models the rounding performed by
Python float formatting (used by the `f"{gap:.1f}"` silence-marker text). -/
def round_half_even (q : ℚ) : ℤ :=
  if q - ⌊q⌋ < 1/2 then ⌊q⌋
  else if 1/2 < q - ⌊q⌋ then ⌊q⌋ + 1
  else if ⌊q⌋ % 2 = 0 then ⌊q⌋ else ⌊q⌋ + 1

/-- Rounding to one decimal place, as done by `f"{gap:.1f}"` in
`transcribe_and_map` (line 46). -/
def round1 (q : ℚ) : ℚ := (round_half_even (q * 10) : ℚ) / 10

/-- The silence-mapping loop of `transcribe_and_map` (lines 38-49): walks
the word list keeping `last_end_time` (initially `0.0`), emits a silence
marker whenever `gap = word.start - last_end_time` exceeds the threshold,
then the word itself.  The accumulated string is modelled as the list of
its entries. -/
def sonic_map (silence_thresh : ℚ) : ℚ → List WordToken → List SonicEntry
  | _, [] => []
  | last_end_time, word :: words =>
    let gap := word.start - last_end_time
    (if gap > silence_thresh then [SonicEntry.silence (round1 gap)] else []) ++
      SonicEntry.word word.word word.start :: sonic_map silence_thresh word.end_ words

/-- Specification-side description of the silence map: pair every word with
its predecessor's end time (`0` before the first word), and render each pair
as an optional gap marker (present exactly when `gap > threshold`, carrying
the rounded gap) followed by the word. -/
def silence_map_spec (silence_thresh : ℚ) (words : List WordToken) : List SonicEntry :=
  (List.zip (0 :: words.map (fun w => w.end_)) words).flatMap (fun pw =>
    (if pw.2.start - pw.1 > silence_thresh
      then [SonicEntry.silence (round1 (pw.2.start - pw.1))] else []) ++
      [SonicEntry.word pw.2.word pw.2.start])

/-- The word texts of a sonic map, in order (silence markers dropped). -/
def word_texts (entries : List SonicEntry) : List String :=
  entries.filterMap (fun e =>
    match e with
    | SonicEntry.word t _ => some t
    | SonicEntry.silence _ => none)

/-- Clamp of an integer sample to the signed range of a
`sample_width`-byte sample, as done by `fbound` in CPython's `audioop`
module (the mixing backend of pydub). -/
def fbound (sample_width : ℕ) (x : ℤ) : ℤ :=
  max (-(2 ^ (8 * sample_width - 1))) (min x (2 ^ (8 * sample_width - 1) - 1))

/-- Saturating per-sample addition, as performed by `audioop.add`, the
primitive behind pydub's `AudioSegment.overlay`. -/
def satadd (sample_width : ℕ) (a b : ℤ) : ℤ := fbound sample_width (a + b)

/-- The sample `x` fits the signed `sample_width`-byte range, so clamping
leaves it unchanged (no clipping). -/
def inRange (sample_width : ℕ) (x : ℤ) : Prop :=
  -(2 ^ (8 * sample_width - 1)) ≤ x ∧ x ≤ 2 ^ (8 * sample_width - 1) - 1

instance (w : ℕ) (x : ℤ) : Decidable (inRange w x) := by
  unfold inRange
  infer_instance

/-- Model of pydub's `AudioSegment.overlay(seg, position)` at frame
granularity: the part of `base` before `position` is kept, the overlapping
region is mixed sample-wise with `audioop.add`, and the tail of `base`
after the clip is kept.  The clip is truncated to the base segment's
extent, so the output always has the base's length. -/
def overlay (sample_width : ℕ) (base clip : List ℤ) (position : ℕ) : List ℤ :=
  base.take position ++
    List.zipWith (satadd sample_width) (base.drop position) clip ++
    base.drop (position + clip.length)

/-- Model of `AudioSegment.silent(duration)` at frame granularity. -/
def silent (frames : ℕ) : List ℤ := List.replicate frames 0

/-- An effect proposal from the planning response's `effects` list: a JSON
object each of whose fields may be absent. -/
structure Proposal where
  prompt : Option String
  timestamp : Option ℚ
  duration_seconds : Option ℚ
  volume_adjustment : Option ℚ
deriving DecidableEq

/-- Model of the plan extraction in `design_sound_effects` (line 74):
`json.loads(...).get('effects', [])` — an absent `effects` key on the
parsed top-level object yields the empty plan. -/
def design_sound_effects (effects : Option (List Proposal)) : List Proposal :=
  effects.getD []

/-- Python `int()` on a rational: truncation toward zero. -/
def pyInt (q : ℚ) : ℤ := if 0 ≤ q then ⌊q⌋ else ⌈q⌉

/-- Model of `timestamp_ms = int(effect['timestamp'] * 1000)` (line 131). -/
def timestamp_ms (t : ℚ) : ℤ := pyInt (t * 1000)

/-- The duration a proposal's synthesis request carries: the
`duration_seconds` field defaulting to `2.0` (line 121), clamped inside
`generate_sfx` to `min(max(duration, 0.5), 22.0)` (line 81). -/
def requested_duration (p : Proposal) : ℚ :=
  min (max (p.duration_seconds.getD 2) (1/2)) 22

/-- Model of `generate_sfx` (lines 76-90): one synthesis request with the
clamped duration.  The HTTP call, `raise_for_status`, and the surrounding
`try/except` are modelled by the oracle `fetch`, which returns `none`
exactly when the request fails (the code then reports via `st.error` and
returns `None`). -/
def generate_sfx (fetch : String → ℚ → Option (List ℕ)) (prompt : String)
    (duration : ℚ) : Option (List ℕ) :=
  fetch prompt (min (max duration (1/2)) 22)

/-- Model of `vol_adj = effect.get('volume_adjustment', 0) + vol_ducking`
(line 127). -/
def vol_adj (vol_ducking : ℚ) (p : Proposal) : ℚ :=
  p.volume_adjustment.getD 0 + vol_ducking

/-- The generate-and-assemble loop over the effect plan (lines 116-132).
External collaborators are parameters: `fetch` is the synthesis request,
`decode` is pydub's `AudioSegment.from_file` on the returned bytes (which
may raise — note it sits outside any `try/except`), and `gainSample` is
the per-sample action of the dB gain shift `sfx_clip + vol_adj`, whose
scale factor `10 ^ (db/20)` the library evaluates in floating point.
Dictionary access with `[]` on a missing key raises a `KeyError`, modelled
as `Except.error`.  Returns the final effects layer together with the
number of composited clips. -/
def sfx_loop (sample_width fpms : ℕ) (fetch : String → ℚ → Option (List ℕ))
    (decode : List ℕ → Except String (List ℤ)) (gainSample : ℚ → ℤ → ℤ)
    (vol_ducking : ℚ) : List Proposal → List ℤ → Except String (List ℤ × ℕ)
  | [], sfx_layer => .ok (sfx_layer, 0)
  | effect :: rest, sfx_layer =>
    match effect.prompt with
    | none => .error "KeyError: prompt"
    | some prompt =>
      match generate_sfx fetch prompt (effect.duration_seconds.getD 2) with
      | none => sfx_loop sample_width fpms fetch decode gainSample vol_ducking rest sfx_layer
      | some sfx_data =>
        match decode sfx_data with
        | .error e => .error e
        | .ok sfx_clip =>
          let shifted := sfx_clip.map (gainSample (vol_adj vol_ducking effect))
          match effect.timestamp with
          | none => .error "KeyError: timestamp"
          | some t =>
            (sfx_loop sample_width fpms fetch decode gainSample vol_ducking rest
                (overlay sample_width sfx_layer shifted ((timestamp_ms t).toNat * fpms))).map
              (fun r => (r.1, r.2 + 1))

/-- The assembly phase of the main app (lines 109-135): build a silent
effects layer of `len(base_audio) + 4000` milliseconds, run the effect
loop, then overlay the voice buffer onto the effects layer at position 0.
`base_audio` is a frame list assumed to span a whole number of
milliseconds at `fpms` frames per millisecond. -/
def run_assembly (sample_width fpms : ℕ) (fetch : String → ℚ → Option (List ℕ))
    (decode : List ℕ → Except String (List ℤ)) (gainSample : ℚ → ℤ → ℤ)
    (vol_ducking : ℚ) (sfx_plan : List Proposal) (base_audio : List ℤ) :
    Except String (List ℤ) :=
  let sfx_layer := silent (base_audio.length + 4000 * fpms)
  (sfx_loop sample_width fpms fetch decode gainSample vol_ducking sfx_plan sfx_layer).map
    (fun r => overlay sample_width r.1 base_audio 0)

/-- Whether a proposal's synthesis request fails: the fetch oracle returns
`none` for its prompt and clamped duration. -/
def request_fails (fetch : String → ℚ → Option (List ℕ)) (p : Proposal) : Bool :=
  (generate_sfx fetch (p.prompt.getD "") (p.duration_seconds.getD 2)).isNone

theorem sonic_map_eq_zip (silence_thresh : ℚ) :
    ∀ (words : List WordToken) (last : ℚ),
      sonic_map silence_thresh last words =
        (List.zip (last :: words.map (fun w => w.end_)) words).flatMap (fun pw =>
          (if pw.2.start - pw.1 > silence_thresh
            then [SonicEntry.silence (round1 (pw.2.start - pw.1))] else []) ++
            [SonicEntry.word pw.2.word pw.2.start])
  | [], _ => rfl
  | w :: ws, last => by
    simp only [sonic_map, List.map_cons, List.zip_cons_cons, List.flatMap_cons]
    rw [sonic_map_eq_zip silence_thresh ws w.end_]
    simp

theorem word_texts_sonic_map (silence_thresh : ℚ) :
    ∀ (words : List WordToken) (last : ℚ),
      word_texts (sonic_map silence_thresh last words) = words.map (fun w => w.word)
  | [], _ => rfl
  | w :: ws, last => by
    simp only [sonic_map]
    by_cases h : w.start - last > silence_thresh <;>
      simp [h, word_texts, List.filterMap_append] <;>
      simpa [word_texts] using word_texts_sonic_map silence_thresh ws w.end_

/-- C1: the Silence Mapper emits a silence marker between consecutive
entries iff the gap (current start minus previous end, last end starting at
`0.0`) strictly exceeds the threshold; each marker carries the gap rounded
to one decimal place, and the word texts appear in exactly the input
order. -/
theorem c1_silence_map (silence_thresh : ℚ) (words : List WordToken) :
    sonic_map silence_thresh 0 words = silence_map_spec silence_thresh words ∧
    word_texts (sonic_map silence_thresh 0 words) = words.map (fun w => w.word) := by
  exact ⟨sonic_map_eq_zip silence_thresh words 0, word_texts_sonic_map silence_thresh words 0⟩

@[simp] theorem overlay_nil (w : ℕ) (clip : List ℤ) (pos : ℕ) :
    overlay w [] clip pos = [] := by
  simp [overlay]

@[simp] theorem overlay_nil_clip (w : ℕ) (base : List ℤ) (pos : ℕ) :
    overlay w base [] pos = base := by
  simp [overlay]

@[simp] theorem overlay_cons_succ (w : ℕ) (x : ℤ) (base clip : List ℤ) (pos : ℕ) :
    overlay w (x :: base) clip (pos + 1) = x :: overlay w base clip pos := by
  simp [overlay, Nat.add_right_comm pos 1]

@[simp] theorem overlay_cons_cons (w : ℕ) (x c : ℤ) (base cs : List ℤ) :
    overlay w (x :: base) (c :: cs) 0 = satadd w x c :: overlay w base cs 0 := by
  simp [overlay]

theorem overlay_length (w : ℕ) (base clip : List ℤ) (pos : ℕ) :
    (overlay w base clip pos).length = base.length := by
  simp only [overlay, List.length_append, List.length_take, List.length_zipWith,
    List.length_drop]
  omega

theorem overlay_getD (w : ℕ) :
    ∀ (base clip : List ℤ) (pos i : ℕ), pos ≤ i → i < base.length →
      i - pos < clip.length →
      (overlay w base clip pos).getD i 0 =
        satadd w (base.getD i 0) (clip.getD (i - pos) 0)
  | [], _, _, i => by
    intro _ h _
    simp at h
  | x :: base, clip, pos + 1, 0 => by
    intro h _ _
    omega
  | x :: base, clip, pos + 1, i + 1 => by
    intro h1 h2 h3
    simpa using overlay_getD w base clip pos i (by omega) (by simpa using h2)
      (by simpa using h3)
  | x :: base, [], 0, i => by
    intro _ _ h
    simp at h
  | x :: base, c :: cs, 0, 0 => by
    intro _ _ _
    simp
  | x :: base, c :: cs, 0, i + 1 => by
    intro _ h2 h3
    simpa using overlay_getD w base cs 0 i (by omega) (by simpa using h2)
      (by simpa using h3)

theorem fbound_eq_self (w : ℕ) (x : ℤ) (h : inRange w x) : fbound w x = x := by
  unfold fbound
  rw [min_eq_left h.2, max_eq_right h.1]

theorem satadd_comm_of_inRange (w : ℕ) (x a b : ℤ)
    (ha : inRange w (x + a)) (hb : inRange w (x + b)) :
    satadd w (satadd w x a) b = satadd w (satadd w x b) a := by
  unfold satadd
  rw [fbound_eq_self w _ ha, fbound_eq_self w _ hb]
  have hba : x + b + a = x + a + b := by ring
  rw [hba]

/-- C7 (amended): compositing is order-independent provided no clipping
occurs where the two clips overlap: at every layer position covered by
both clips, the layer sample plus either single clip's sample must stay in
the representable range.  Then overlaying clip A and then clip B onto the
layer yields the same samples as B and then A.  (Without that proviso the
saturating `audioop.add` breaks commutativity, see the counterexample.) -/
theorem c7_overlay_comm (w : ℕ) :
    ∀ (layer clipA clipB : List ℤ) (pa pb : ℕ),
      (∀ i, i < layer.length → pa ≤ i → i - pa < clipA.length →
          pb ≤ i → i - pb < clipB.length →
          inRange w (layer.getD i 0 + clipA.getD (i - pa) 0) ∧
          inRange w (layer.getD i 0 + clipB.getD (i - pb) 0)) →
      overlay w (overlay w layer clipA pa) clipB pb =
        overlay w (overlay w layer clipB pb) clipA pa
  | [], _, _, _, _ => by
    intro _
    simp
  | x :: layer, [], clipB, pa, pb => by
    intro _
    simp
  | x :: layer, a :: as, [], pa, pb => by
    intro _
    simp
  | x :: layer, a :: as, b :: bs, pa + 1, pb + 1 => by
    intro h
    have hrec := c7_overlay_comm w layer (a :: as) (b :: bs) pa pb
      (fun i hi h1 h2 h3 h4 => by
        have := h (i + 1) (by simpa using hi) (by omega) (by simpa using h2)
          (by omega) (by simpa using h4)
        simpa using this)
    simp only [overlay_cons_succ, hrec]
  | x :: layer, a :: as, b :: bs, 0, pb + 1 => by
    intro h
    have hrec := c7_overlay_comm w layer as (b :: bs) 0 pb
      (fun i hi h1 h2 h3 h4 => by
        have := h (i + 1) (by simpa using hi) (by omega) (by simpa using h2)
          (by omega) (by simpa using h4)
        simpa using this)
    simp only [overlay_cons_cons, overlay_cons_succ, hrec]
  | x :: layer, a :: as, b :: bs, pa + 1, 0 => by
    intro h
    have hrec := c7_overlay_comm w layer (a :: as) bs pa 0
      (fun i hi h1 h2 h3 h4 => by
        have := h (i + 1) (by simpa using hi) (by omega) (by simpa using h2)
          (by omega) (by simpa using h4)
        simpa using this)
    simp only [overlay_cons_cons, overlay_cons_succ, hrec]
  | x :: layer, a :: as, b :: bs, 0, 0 => by
    intro h
    have h0 := h 0 (by simp) (by omega) (by simp) (by omega) (by simp)
    simp only [List.getD_cons_zero, Nat.sub_zero] at h0
    have hrec := c7_overlay_comm w layer as bs 0 0
      (fun i hi h1 h2 h3 h4 => by
        have := h (i + 1) (by simpa using hi) (by omega) (by simpa using h2)
          (by omega) (by simpa using h4)
        simpa using this)
    simp only [overlay_cons_cons, hrec]
    rw [satadd_comm_of_inRange w x a b h0.1 h0.2]

/-- C7 counterexample: with 16-bit samples, overlaying the clips
`[20000]` and `[-20000]` onto the layer `[20000]` in the two orders gives
different samples (`12767` versus `20000`), because the first order
saturates at `32767` before the negative clip is added. -/
theorem c7_counterexample :
    overlay 2 (overlay 2 [20000] [20000] 0) [-20000] 0 ≠
      overlay 2 (overlay 2 [20000] [-20000] 0) [20000] 0 := by
  decide

theorem c7_witness :
    overlay 2 (overlay 2 [100] [5] 0) [7] 0 =
      overlay 2 (overlay 2 [100] [7] 0) [5] 0 :=
  c7_overlay_comm 2 [100] [5] [7] 0 0 (by
    intro i hi h1 h2 h3 h4
    have hz : i = 0 := by simpa using hi
    subst hz
    exact ⟨by decide, by decide⟩)

/-- C2 (amended): an overlay never extends the effects layer.  The result
of `overlay` always has the layer's length, so the portion of a clip
extending beyond the layer's end is silently dropped; within the layer the
clip does appear, mixed sample-wise onto the layer.  In particular an
effect placed at `timestamp = len(voice) + 1s` appears only up to the
4-second safety margin, not in full. -/
theorem c2_overlay_no_extension (w : ℕ) (base clip : List ℤ) (pos : ℕ) :
    (overlay w base clip pos).length = base.length ∧
    (∀ i, pos ≤ i → i < base.length → i - pos < clip.length →
      (overlay w base clip pos).getD i 0 =
        satadd w (base.getD i 0) (clip.getD (i - pos) 0)) :=
  ⟨overlay_length w base clip pos,
    fun i h1 h2 h3 => overlay_getD w base clip pos i h1 h2 h3⟩

/-- C2 counterexample: overlaying a 3-frame clip at position 1 onto a
2-frame layer does not extend the layer to 4 frames; the result keeps the
layer's 2-frame length and the clip's tail is dropped. -/
theorem c2_counterexample :
    (overlay 2 [0, 0] [7, 7, 7] 1).length ≠ 1 + [(7 : ℤ), 7, 7].length ∧
    overlay 2 [0, 0] [7, 7, 7] 1 = [0, 7] := by
  decide

theorem c2_witness :
    (overlay 2 [0, 0] [7, 7, 7] 1).length = ([0, 0] : List ℤ).length ∧
    (overlay 2 [0, 0] [7, 7, 7] 1).getD 1 0 =
      satadd 2 (([0, 0] : List ℤ).getD 1 0) (([7, 7, 7] : List ℤ).getD (1 - 1) 0) :=
  ⟨(c2_overlay_no_extension 2 [0, 0] [7, 7, 7] 1).1,
    (c2_overlay_no_extension 2 [0, 0] [7, 7, 7] 1).2 1 (by decide) (by decide) (by decide)⟩

/-- C3 (amended): the overlay offset is `int(timestamp * 1000)`, the
product truncated toward zero — for a non-negative timestamp, its floor —
which differs from the nearest integer whenever the fractional part is at
least one half. -/
theorem c3_truncation (t : ℚ) (h : 0 ≤ t) : timestamp_ms t = ⌊t * 1000⌋ := by
  unfold timestamp_ms pyInt
  rw [if_pos (mul_nonneg h (by norm_num))]

/-- C3 counterexample: at `timestamp = 3/16` seconds (exactly
representable in binary floating point), `int(timestamp * 1000)` truncates
`187.5` to `187`, while the nearest integer is `188`. -/
theorem c3_counterexample :
    0 ≤ (3/16 : ℚ) ∧ timestamp_ms (3/16) ≠ round ((3/16 : ℚ) * 1000) := by
  constructor
  · norm_num
  · have h1 : timestamp_ms (3/16) = 187 := by
      unfold timestamp_ms pyInt
      rw [if_pos (by norm_num)]
      norm_num
    have h2 : round ((3/16 : ℚ) * 1000) = 188 := by
      rw [round_eq, show (3 : ℚ) / 16 * 1000 + 1/2 = 188 by norm_num]
      norm_num
    rw [h1, h2]
    decide

theorem c3_witness : 0 ≤ (1/2 : ℚ) ∧ timestamp_ms (1/2) = ⌊((1/2 : ℚ) * 1000)⌋ :=
  ⟨by norm_num, c3_truncation (1/2) (by norm_num)⟩

theorem sfx_loop_length (w fpms : ℕ) (fetch : String → ℚ → Option (List ℕ))
    (decode : List ℕ → Except String (List ℤ)) (g : ℚ → ℤ → ℤ) (vd : ℚ)
    (plan : List Proposal) :
    ∀ (layer final : List ℤ) (k : ℕ),
      sfx_loop w fpms fetch decode g vd plan layer = .ok (final, k) →
        final.length = layer.length := by
  induction plan with
  | nil =>
    intro layer final k h
    simp only [sfx_loop, Except.ok.injEq, Prod.mk.injEq] at h
    rw [← h.1]
  | cons p rest ih =>
    intro layer final k h
    simp only [sfx_loop] at h
    cases hp : p.prompt with
    | none => simp [hp] at h
    | some pr =>
      simp only [hp] at h
      cases hg : generate_sfx fetch pr (p.duration_seconds.getD 2) with
      | none =>
        simp only [hg] at h
        exact ih layer final k h
      | some raw =>
        simp only [hg] at h
        cases hd : decode raw with
        | error e => simp [hd] at h
        | ok clip =>
          simp only [hd] at h
          cases ht : p.timestamp with
          | none => simp [ht] at h
          | some t =>
            simp only [ht] at h
            cases hr : sfx_loop w fpms fetch decode g vd rest
                (overlay w layer (clip.map (g (vol_adj vd p)))
                  ((timestamp_ms t).toNat * fpms)) with
            | error e => rw [hr] at h; simp [Except.map] at h
            | ok r =>
              rw [hr] at h
              simp only [Except.map, Except.ok.injEq, Prod.mk.injEq] at h
              have hlen := ih _ r.1 r.2 (by rw [hr])
              rw [← h.1, hlen, overlay_length]

/-- C10: whenever the assembly completes, the final mix has exactly the
voice buffer's length plus the fixed 4000 ms margin (at `fpms` frames per
millisecond); no overlay performed by the loop changes the effects layer's
length. -/
theorem c10_final_mix_length (w fpms : ℕ) (fetch : String → ℚ → Option (List ℕ))
    (decode : List ℕ → Except String (List ℤ)) (g : ℚ → ℤ → ℤ) (vd : ℚ)
    (plan : List Proposal) (base mix : List ℤ)
    (h : run_assembly w fpms fetch decode g vd plan base = .ok mix) :
    mix.length = base.length + 4000 * fpms := by
  simp only [run_assembly] at h
  cases hr : sfx_loop w fpms fetch decode g vd plan (silent (base.length + 4000 * fpms)) with
  | error e => rw [hr] at h; simp [Except.map] at h
  | ok r =>
    rw [hr] at h
    simp only [Except.map, Except.ok.injEq] at h
    have hlen := sfx_loop_length w fpms fetch decode g vd plan
      (silent (base.length + 4000 * fpms)) r.1 r.2 (by rw [hr])
    rw [← h, overlay_length, hlen]
    simp [silent]

theorem c10_witness : (silent 4000 : List ℤ).length = ([] : List ℤ).length + 4000 * 1 :=
  c10_final_mix_length 2 1 (fun _ _ => none) (fun _ => Except.ok []) (fun _ s => s) 0
    [] [] (silent 4000) rfl

/-- C9: a planning response whose parsed top-level object lacks the
`effects` list yields the empty plan, and the run proceeds through
assembly to the export stage rather than failing. -/
theorem c9_default_empty_plan (w fpms : ℕ) (fetch : String → ℚ → Option (List ℕ))
    (decode : List ℕ → Except String (List ℤ)) (g : ℚ → ℤ → ℤ) (vd : ℚ)
    (base : List ℤ) :
    design_sound_effects none = [] ∧
    run_assembly w fpms fetch decode g vd (design_sound_effects none) base =
      .ok (overlay w (silent (base.length + 4000 * fpms)) base 0) :=
  ⟨rfl, rfl⟩

/-- C8 (amended): an effect proposal without a `prompt` key is not dropped
with the run continuing; instead `effect['prompt']` raises a `KeyError`
that aborts the whole run fatally. -/
theorem c8_missing_prompt_fatal (w fpms : ℕ) (fetch : String → ℚ → Option (List ℕ))
    (decode : List ℕ → Except String (List ℤ)) (g : ℚ → ℤ → ℤ) (vd : ℚ)
    (p : Proposal) (rest : List Proposal) (layer : List ℤ)
    (hp : p.prompt = none) :
    sfx_loop w fpms fetch decode g vd (p :: rest) layer = .error "KeyError: prompt" := by
  simp [sfx_loop, hp]

/-- C8 counterexample: a plan whose only effect lacks a prompt makes the
loop abort with an error instead of skipping the effect and succeeding. -/
theorem c8_counterexample :
    (sfx_loop 2 1 (fun _ _ => some [1])
        (fun raw => Except.ok (raw.map (fun n => (n : ℤ)))) (fun _ s => s) 0
        [⟨none, some (5/2), some 3, some (-5)⟩] [0]).isOk = false := by
  rfl

theorem c8_witness :
    sfx_loop 2 1 (fun _ _ => none) (fun _ => Except.ok []) (fun _ s => s) 0
        [⟨none, none, none, none⟩] [] = .error "KeyError: prompt" :=
  c8_missing_prompt_fatal 2 1 (fun _ _ => none) (fun _ => Except.ok []) (fun _ s => s) 0
    ⟨none, none, none, none⟩ [] [] rfl

/-- C5: the duration sent to the synthesis service defaults to 2.0 when
the proposal omits `duration_seconds` and is clamped into [0.5, 22]
(30 maps to 22, -5 maps to 0.5); an effect with a prompt is never dropped
for an out-of-range duration — its request is always issued with the
clamped duration, and it is skipped only if that request itself fails. -/
theorem c5_duration (w fpms : ℕ) (fetch : String → ℚ → Option (List ℕ))
    (decode : List ℕ → Except String (List ℤ)) (g : ℚ → ℤ → ℤ) (vd : ℚ)
    (p : Proposal) (pr : String) (rest : List Proposal) (layer : List ℤ) :
    (1/2 ≤ requested_duration p ∧ requested_duration p ≤ 22) ∧
    (p.duration_seconds = none → requested_duration p = 2) ∧
    requested_duration ⟨some "thunder", some 0, some 30, none⟩ = 22 ∧
    requested_duration ⟨some "thunder", some 0, some (-5), none⟩ = 1/2 ∧
    (p.prompt = some pr →
      generate_sfx fetch pr (p.duration_seconds.getD 2) =
        fetch pr (requested_duration p)) ∧
    (p.prompt = some pr → fetch pr (requested_duration p) = none →
      sfx_loop w fpms fetch decode g vd (p :: rest) layer =
        sfx_loop w fpms fetch decode g vd rest layer) := by
  refine ⟨⟨le_min (le_max_right _ _) (by norm_num), min_le_right _ _⟩, ?_, ?_, ?_, ?_, ?_⟩
  · intro h
    simp [requested_duration, h]
    norm_num
  · norm_num [requested_duration]
  · norm_num [requested_duration]
  · intro _
    rfl
  · intro hp hf
    have hg : generate_sfx fetch pr (p.duration_seconds.getD 2) = none := hf
    simp [sfx_loop, hp, hg]

theorem c5_witness :
    sfx_loop 2 1 (fun _ _ => none) (fun _ => Except.ok []) (fun _ s => s) 0
        [⟨some "thunder", some 0, some 30, none⟩] [] =
      sfx_loop 2 1 (fun _ _ => none) (fun _ => Except.ok []) (fun _ s => s) 0 [] [] :=
  (c5_duration 2 1 (fun _ _ => none) (fun _ => Except.ok []) (fun _ s => s) 0
    ⟨some "thunder", some 0, some 30, none⟩ "thunder" [] []).2.2.2.2.2 rfl rfl

/-- C6: the gain applied to a fetched clip before overlay equals the
proposal's `volume_adjustment` (defaulting to 0 when the field is absent)
plus the global SFX ducking setting, which is added uniformly for every
effect. -/
theorem c6_gain (w fpms : ℕ) (fetch : String → ℚ → Option (List ℕ))
    (decode : List ℕ → Except String (List ℤ)) (g : ℚ → ℤ → ℤ) (vd : ℚ)
    (p : Proposal) (pr : String) (t : ℚ) (raw : List ℕ) (clip : List ℤ)
    (rest : List Proposal) (layer : List ℤ)
    (hp : p.prompt = some pr)
    (hg : generate_sfx fetch pr (p.duration_seconds.getD 2) = some raw)
    (hd : decode raw = Except.ok clip)
    (ht : p.timestamp = some t) :
    sfx_loop w fpms fetch decode g vd (p :: rest) layer =
      (sfx_loop w fpms fetch decode g vd rest
          (overlay w layer (clip.map (g (p.volume_adjustment.getD 0 + vd)))
            ((timestamp_ms t).toNat * fpms))).map (fun r => (r.1, r.2 + 1)) ∧
    (p.volume_adjustment = none → vol_adj vd p = 0 + vd) := by
  constructor
  · simp [sfx_loop, hp, hg, hd, ht, vol_adj]
  · intro h
    simp [vol_adj, h]

theorem c6_witness :
    sfx_loop 2 1 (fun _ _ => some [9]) (fun _ => Except.ok [5]) (fun _ s => s) (-5)
        [⟨some "rain", some 1, none, some (-10)⟩] [0, 0] =
      (sfx_loop 2 1 (fun _ _ => some [9]) (fun _ => Except.ok [5]) (fun _ s => s) (-5) []
          (overlay 2 [0, 0] (([5] : List ℤ).map (fun s => s))
            ((timestamp_ms 1).toNat * 1))).map (fun r => (r.1, r.2 + 1)) :=
  (c6_gain 2 1 (fun _ _ => some [9]) (fun _ => Except.ok [5]) (fun _ s => s) (-5)
    ⟨some "rain", some 1, none, some (-10)⟩ "rain" 1 [9] [5] [] [0, 0]
    rfl rfl rfl rfl).1

/-- C4 counterexample: a decode failure of returned audio bytes is not
skipped non-fatally: `AudioSegment.from_file` runs outside the
`try/except`, so a batch of N = 1 effects with M = 1 decode failure aborts
before composition instead of reaching the export stage. -/
theorem c4_counterexample :
    run_assembly 2 1 (fun _ _ => some [0]) (fun _ => Except.error "CouldntDecodeError")
        (fun _ s => s) 0 [⟨some "glass breaking", some 1, none, none⟩] [0] =
      Except.error "CouldntDecodeError" := by
  rfl

/-- C4 (amended): when every proposal in the plan carries a prompt and a
timestamp and every fetched clip decodes, per-request failures are
non-fatal: for N proposals of which M requests fail (network or non-2xx,
i.e. the fetch oracle answers `none`), the loop skips the failures,
composites exactly N - M clips, and the run still reaches the export
stage.  Decode failures are excluded: they abort the run (see the
counterexample). -/
theorem c4_batch (w fpms : ℕ) (fetch : String → ℚ → Option (List ℕ))
    (decode : List ℕ → Except String (List ℤ)) (g : ℚ → ℤ → ℤ) (vd : ℚ)
    (plan : List Proposal)
    (h : ∀ p ∈ plan, p.prompt.isSome = true ∧ p.timestamp.isSome = true ∧
      ∀ raw, generate_sfx fetch (p.prompt.getD "") (p.duration_seconds.getD 2) = some raw →
        (decode raw).isOk = true) :
    (∀ layer, ∃ final, sfx_loop w fpms fetch decode g vd plan layer =
        .ok (final, plan.length - (plan.filter (request_fails fetch)).length)) ∧
    (∀ base, ∃ mix, run_assembly w fpms fetch decode g vd plan base = .ok mix) := by
  have main : ∀ (pl : List Proposal),
      (∀ p ∈ pl, p.prompt.isSome = true ∧ p.timestamp.isSome = true ∧
        ∀ raw, generate_sfx fetch (p.prompt.getD "") (p.duration_seconds.getD 2) = some raw →
          (decode raw).isOk = true) →
      ∀ layer, ∃ final, sfx_loop w fpms fetch decode g vd pl layer =
        .ok (final, pl.length - (pl.filter (request_fails fetch)).length) := by
    intro pl
    induction pl with
    | nil =>
      intro _ layer
      exact ⟨layer, by simp [sfx_loop]⟩
    | cons p rest ih =>
      intro hall layer
      obtain ⟨hp, ht, hdec⟩ := hall p (by simp)
      obtain ⟨pr, hpr⟩ := Option.isSome_iff_exists.mp hp
      obtain ⟨t, htt⟩ := Option.isSome_iff_exists.mp ht
      have hrest := fun q hq => hall q (List.mem_cons_of_mem p hq)
      have hMrest := List.length_filter_le (request_fails fetch) rest
      cases hg : generate_sfx fetch pr (p.duration_seconds.getD 2) with
      | none =>
        obtain ⟨final, hfin⟩ := ih hrest layer
        refine ⟨final, ?_⟩
        have hfails : request_fails fetch p = true := by
          simp [request_fails, hpr, hg]
        simp [sfx_loop, hpr, hg, hfin, List.filter_cons, hfails]
      | some raw =>
        have hde : (decode raw).isOk = true := hdec raw (by simpa [hpr] using hg)
        obtain ⟨clip, hclip⟩ : ∃ c, decode raw = .ok c := by
          cases hd : decode raw with
          | error e => rw [hd] at hde; simp [Except.isOk, Except.toBool] at hde
          | ok c => exact ⟨c, rfl⟩
        obtain ⟨final, hfin⟩ := ih hrest
          (overlay w layer (clip.map (g (vol_adj vd p))) ((timestamp_ms t).toNat * fpms))
        refine ⟨final, ?_⟩
        have hfails : request_fails fetch p = false := by
          simp [request_fails, hpr, hg]
        simp [sfx_loop, hpr, hg, hclip, htt, hfin, Except.map, List.filter_cons, hfails]
        omega
  refine ⟨main plan h, fun base => ?_⟩
  obtain ⟨final, hfin⟩ := main plan h (silent (base.length + 4000 * fpms))
  exact ⟨overlay w final base 0, by simp [run_assembly, hfin, Except.map]⟩

theorem c4_witness :
    (∀ layer, ∃ final,
      sfx_loop 2 1 (fun _ _ => none) (fun _ => Except.ok []) (fun _ s => s) 0
          [⟨some "rain", some 0, none, none⟩] layer =
        .ok (final, ([⟨some "rain", some 0, none, none⟩] : List Proposal).length -
          (([⟨some "rain", some 0, none, none⟩] : List Proposal).filter
            (request_fails (fun _ _ => none))).length)) ∧
    (∀ base, ∃ mix, run_assembly 2 1 (fun _ _ => none) (fun _ => Except.ok [])
        (fun _ s => s) 0 [⟨some "rain", some 0, none, none⟩] base = .ok mix) :=
  c4_batch 2 1 (fun _ _ => none) (fun _ => Except.ok []) (fun _ s => s) 0
    [⟨some "rain", some 0, none, none⟩]
    (by
      intro p hp
      simp only [List.mem_singleton] at hp
      subst hp
      exact ⟨rfl, rfl, fun raw _ => rfl⟩)
